import Mathlib

/-!
Verification of the file-change detection pipeline of kitbash-viewer.

The definitions below are a shallow embedding of `src/main.rs` (and of the
serde-derived serialization of its `FileEvent` enum).  Time is modelled in
milliseconds as `Nat`; the `Instant` values stored in the debounce map are
monotone timestamps, and `Instant::duration_since` becomes truncated `Nat`
subtraction.  The filesystem observations that the code makes (`path.exists()`,
`fs::read_dir`, `entry.metadata()`) are passed in as explicit arguments.
-/

namespace KitbashViewer

/-- Raw notification kind, the classification of `notify::EventKind` performed
at main.rs lines 241-246: `Create`, `Modify`, `Remove` or anything else
(the `_ => continue` arm). -/
inductive RawKind where
  | create
  | modify
  | remove
  | other
deriving DecidableEq, Repr

/-- The `FileEvent` enum of main.rs lines 60-66: three struct variants, each
carrying a `filename` field. -/
inductive FileEvent where
  | Added (filename : String)
  | Modified (filename : String)
  | Removed (filename : String)
deriving DecidableEq, Repr

/-- The Rust variant identifier of a `FileEvent` value, as written in the
source (`Added`, `Modified`, `Removed`). -/
def FileEvent.variantName : FileEvent → String
  | .Added _ => "Added"
  | .Modified _ => "Modified"
  | .Removed _ => "Removed"

/-- The `filename` field common to all three `FileEvent` variants. -/
def FileEvent.filename : FileEvent → String
  | .Added f => f
  | .Modified f => f
  | .Removed f => f

/-- Rust `str::ends_with` (a byte-wise suffix test; on the valid UTF-8 strings
Rust guarantees, equal to the character-wise suffix test modelled here). -/
def strEndsWith (s post : String) : Bool :=
  post.data.isSuffixOf s.data

/-- The debounce map `last_events : HashMap<String, (String, Instant)>` of
main.rs line 229, modelled as an association list from filename to
(last event kind string, last timestamp in ms). -/
abbrev DebounceMap := List (String × String × Nat)

/-- Rust `HashMap::get`: the value associated with `k`, if any. -/
def getEntry (m : DebounceMap) (k : String) : Option (String × Nat) :=
  match m with
  | [] => none
  | (k', v) :: rest => if k' = k then some v else getEntry rest k

/-- Rust `HashMap::insert`: replace the binding of `k` (or append a fresh one). -/
def insertEntry (m : DebounceMap) (k : String) (v : String × Nat) : DebounceMap :=
  match m with
  | [] => [(k, v)]
  | (k', v') :: rest =>
    if k' = k then (k, v) :: rest else (k', v') :: insertEntry rest k v

/-- The fixed debounce window, `Duration::from_millis(100)` (main.rs line 230),
in milliseconds. -/
def debounce_duration : Nat := 100

/-- The `event_kind_str` match of main.rs lines 241-246: `Create`/`Modify`/
`Remove` map to their strings, every other kind is skipped (`continue`). -/
def eventKindStr : RawKind → Option String
  | .create => some "create"
  | .modify => some "modify"
  | .remove => some "remove"
  | .other => none

/-- The effective ("actual") event kind after the existence check of main.rs
lines 252-256: if the file does not exist the kind is forced to "remove",
otherwise the raw kind string is kept; `none` when the raw kind is filtered
out (`RawKind.other`). -/
def effectiveKind (kind : RawKind) (file_exists : Bool) : Option String :=
  (eventKindStr kind).map (fun s => if !file_exists then "remove" else s)

/-- One iteration of the per-path body of the watcher loop, main.rs lines
235-295.  Inputs: the extracted file name (`path.file_name().and_then(to_str)`,
`none` when it cannot be determined), the raw kind of the notification, the
result of the `path.exists()` check, the current time `now` (ms), and the
debounce map.  Output: the emitted `FileEvent`, if any, and the updated map.
The structure mirrors the source exactly: suffix filter, raw-kind match,
existence override, `should_send` debounce decision, then the three
event-producing branches (each inserting the record) with a `None` fallback. -/
def processNotification (fname? : Option String) (kind : RawKind)
    (file_exists : Bool) (now : Nat) (last_events : DebounceMap) :
    Option FileEvent × DebounceMap :=
  match fname? with
  | none => (none, last_events)
  | some file_name =>
    if strEndsWith file_name ".obj" then
      match eventKindStr kind with
      | none => (none, last_events)
      | some event_kind_str =>
        let actual_event_kind := if !file_exists then "remove" else event_kind_str
        let should_send :=
          match getEntry last_events file_name with
          | some (lk, lt) =>
            lk != actual_event_kind || decide (now - lt > debounce_duration)
          | none => true
        if should_send then
          if actual_event_kind == "remove" then
            (some (FileEvent.Removed file_name),
             insertEntry last_events file_name (actual_event_kind, now))
          else if actual_event_kind == "create" && file_exists then
            (some (FileEvent.Added file_name),
             insertEntry last_events file_name (actual_event_kind, now))
          else if actual_event_kind == "modify" && file_exists then
            (some (FileEvent.Modified file_name),
             insertEntry last_events file_name (actual_event_kind, now))
          else
            (none, last_events)
        else
          (none, last_events)
    else
      (none, last_events)

/-- A raw notification as it reaches the watcher loop, together with the
environment the loop observes while handling it: extracted file name, raw
kind, the `path.exists()` answer, and the time of processing. -/
structure RawNote where
  fname : Option String
  kind : RawKind
  file_exists : Bool
  now : Nat

/-- Processing a sequence of raw notifications in order, threading the
debounce map; collects the emitted events. -/
def processList (notes : List RawNote) (m : DebounceMap) :
    List FileEvent × DebounceMap :=
  match notes with
  | [] => ([], m)
  | n :: rest =>
    let r := processNotification n.fname n.kind n.file_exists n.now m
    let r' := processList rest r.2
    (r.1.toList ++ r'.1, r'.2)

/-- The time of the first notification in the sequence whose processing emits
an event, if any. -/
def firstEmitTime (notes : List RawNote) (m : DebounceMap) : Option Nat :=
  match notes with
  | [] => none
  | n :: rest =>
    let r := processNotification n.fname n.kind n.file_exists n.now m
    match r.1 with
    | some _ => some n.now
    | none => firstEmitTime rest r.2

/-- The emission condition of the debounce decision, stated the way the
specification words it: no record exists for the filename, or the new
effective kind differs from the record's kind, or the elapsed time since the
record's timestamp strictly exceeds the debounce window. -/
def debounceFires (m : DebounceMap) (file_name a : String) (now : Nat) : Prop :=
  getEntry m file_name = none ∨
    ∃ lk lt, getEntry m file_name = some (lk, lt) ∧
      (lk ≠ a ∨ now - lt > debounce_duration)

/-- One entry yielded by `fs::read_dir` iteration in `list_files` (main.rs
lines 117-131), as the code observes it: `file_name` is
`entry.file_name().to_str()` (`none` when the name is not valid UTF-8), and
`metadata` is `none` when `entry.metadata()` returned `Err`, otherwise
`some is_file`. -/
structure DirEntry where
  file_name : Option String
  metadata : Option Bool
deriving DecidableEq, Repr

/-- The name contributed by one `read_dir` item to the `files` vector of
`list_files`: `none` entries (an `Err` item, skipped by `.flatten()`),
metadata errors, non-regular files, non-UTF-8 names and names without the
".obj" suffix contribute nothing. -/
def entryFileName (e : Option DirEntry) : Option String :=
  match e with
  | none => none
  | some d =>
    match d.metadata with
    | some true =>
      match d.file_name with
      | some n => if strEndsWith n ".obj" then some n else none
      | none => none
    | _ => none

/-- The `list_files` handler, main.rs lines 111-137.  The argument is the
result of `fs::read_dir` on the scene directory: `none` when the read failed
(the `if let Ok(entries)` guard), otherwise the list of yielded items.  Each
`FileInfo` in the response carries only its `name`, so the response is
represented by the list of names.  The final `sort_by` on names is modelled
by `List.mergeSort` with the lexicographic order on strings (Rust's `cmp`
compares bytes; on valid UTF-8 that order coincides with the character-wise
lexicographic order used here). -/
def list_files (readDirResult : Option (List (Option DirEntry))) : List String :=
  match readDirResult with
  | none => []
  | some entries =>
    List.mergeSort (entries.filterMap entryFileName) (fun a b => a ≤ b)

/-- Serde's `snake_case` rename rule applied to an identifier: every
uppercase character is lowercased, with an underscore inserted before it
unless it starts the identifier. -/
def snakeAux : Bool → List Char → List Char
  | _, [] => []
  | first, c :: cs =>
    if c.isUpper then
      (if first then [c.toLower] else ['_', c.toLower]) ++ snakeAux false cs
    else
      c :: snakeAux false cs

/-- Serde's `RenameRule::SnakeCase` on a variant identifier. -/
def rustSnakeCase (s : String) : String :=
  String.mk (snakeAux true s.data)

/-- Hexadecimal digit character (lowercase), for JSON control escapes. -/
def hexDigitChar (n : Nat) : Char :=
  if n < 10 then Char.ofNat (48 + n) else Char.ofNat (87 + n)

/-- The escaping serde_json applies to one character inside a JSON string. -/
def jsonEscapeChar (c : Char) : String :=
  if c = '"' then "\\\""
  else if c = '\\' then "\\\\"
  else if c = '\x08' then "\\b"
  else if c = '\x0c' then "\\f"
  else if c = '\n' then "\\n"
  else if c = '\r' then "\\r"
  else if c = '\t' then "\\t"
  else if c.toNat < 32 then
    "\\u00" ++ String.mk [hexDigitChar (c.toNat / 16), hexDigitChar (c.toNat % 16)]
  else
    String.singleton c

/-- A JSON string literal as serde_json prints it. -/
def jsonEscapeString (s : String) : String :=
  "\"" ++ String.join (s.data.map jsonEscapeChar) ++ "\""

/-- The wire message produced by `serde_json::to_string(&event)` in
`handle_socket` (main.rs line 90) for the `FileEvent` enum declared with
`#[serde(tag = "type", rename_all = "snake_case")]` (main.rs lines 60-66):
an internally tagged object whose "type" field is the snake_case rename of
the Rust variant identifier, followed by the variant's `filename` field. -/
def serializeFileEvent (e : FileEvent) : String :=
  "\x7b\"type\":" ++ jsonEscapeString (rustSnakeCase e.variantName) ++
    ",\"filename\":" ++ jsonEscapeString e.filename ++ "\x7d"

/-- Which parts of the process end up running after startup. -/
structure StartupOutcome where
  watcherTaskAlive : Bool
  serverRunning : Bool
deriving DecidableEq, Repr

/-- Startup control flow of `main` (main.rs lines 203-332), for a run without
help flags.  The watcher is set up inside `tokio::spawn` (line 211); the two
`.expect` calls there — watcher creation (line 220) and directory attach
(line 224) — panic only that spawned task: tokio catches a panic in a
spawned task and stores it in the `JoinHandle`, which `main` drops without
awaiting.  `main` itself proceeds unconditionally to bind the listener and
serve (lines 317-332).  So the watcher task stays alive exactly when both
watcher creation and attach succeed, while the HTTP server runs whenever the
bind succeeds, independently of the watcher; neither failure is retried
anywhere (the task body is straight-line code, no loop around the
`.expect` calls). -/
def mainStartup (watcher_create_ok watch_attach_ok bind_ok : Bool) :
    StartupOutcome :=
  { watcherTaskAlive := watcher_create_ok && watch_attach_ok,
    serverRunning := bind_ok }

theorem sendCond_true_of_fires (m : DebounceMap) (file_name a : String)
    (now : Nat) (hf : debounceFires m file_name a now) :
    (match getEntry m file_name with
     | some (lk, lt) => lk != a || decide (now - lt > debounce_duration)
     | none => true) = true := by
  rcases h : getEntry m file_name with _ | ⟨lk, lt⟩
  · rfl
  · simp only [debounceFires, h, Option.some.injEq, Prod.mk.injEq,
      reduceCtorEq, false_or] at hf
    obtain ⟨lk', lt', ⟨rfl, rfl⟩, hd⟩ := hf
    simp only [Bool.or_eq_true, bne_iff_ne, ne_eq, decide_eq_true_eq]
    exact hd

theorem sendCond_false_of_not_fires (m : DebounceMap) (file_name a : String)
    (now : Nat) (hf : ¬ debounceFires m file_name a now) :
    (match getEntry m file_name with
     | some (lk, lt) => lk != a || decide (now - lt > debounce_duration)
     | none => true) = false := by
  rcases h : getEntry m file_name with _ | ⟨lk, lt⟩
  · exact absurd (Or.inl h) hf
  · have hnd : ¬(lk ≠ a ∨ now - lt > debounce_duration) := fun hd =>
      hf (Or.inr ⟨lk, lt, h, hd⟩)
    push_neg at hnd
    obtain ⟨rfl, hle⟩ := hnd
    simp only [bne_self_eq_false, Bool.false_or, decide_eq_false_iff_not]
    omega

theorem processNotification_no_suffix (file_name : String) (kind : RawKind)
    (file_exists : Bool) (now : Nat) (m : DebounceMap)
    (hs : strEndsWith file_name ".obj" = false) :
    processNotification (some file_name) kind file_exists now m = (none, m) := by
  simp [processNotification, hs]

theorem processNotification_fires (file_name : String) (k : RawKind) (ex : Bool)
    (now : Nat) (m : DebounceMap) (a : String)
    (hs : strEndsWith file_name ".obj" = true)
    (ha : effectiveKind k ex = some a)
    (hf : debounceFires m file_name a now) :
    ∃ e : FileEvent,
      processNotification (some file_name) k ex now m =
        (some e, insertEntry m file_name (a, now)) ∧
      (a = "remove" → e = FileEvent.Removed file_name) := by
  have hsend := sendCond_true_of_fires m file_name a now hf
  cases k <;> cases ex <;>
    simp only [effectiveKind, eventKindStr, Option.map_some', Option.map_none',
      Option.some.injEq, Bool.not_true, Bool.not_false, if_true, if_false,
      reduceCtorEq, reduceIte] at ha <;>
    subst ha
  case create.false =>
    exact ⟨FileEvent.Removed file_name,
      by simp [processNotification, hs, eventKindStr, hsend], fun _ => rfl⟩
  case create.true =>
    refine ⟨FileEvent.Added file_name,
      by simp [processNotification, hs, eventKindStr, hsend], fun h => ?_⟩
    exact absurd h (by decide)
  case modify.false =>
    exact ⟨FileEvent.Removed file_name,
      by simp [processNotification, hs, eventKindStr, hsend], fun _ => rfl⟩
  case modify.true =>
    refine ⟨FileEvent.Modified file_name,
      by simp [processNotification, hs, eventKindStr, hsend], fun h => ?_⟩
    exact absurd h (by decide)
  case remove.false =>
    exact ⟨FileEvent.Removed file_name,
      by simp [processNotification, hs, eventKindStr, hsend], fun _ => rfl⟩
  case remove.true =>
    exact ⟨FileEvent.Removed file_name,
      by simp [processNotification, hs, eventKindStr, hsend], fun _ => rfl⟩

theorem processNotification_quiet (file_name : String) (k : RawKind) (ex : Bool)
    (now : Nat) (m : DebounceMap) (a : String)
    (hs : strEndsWith file_name ".obj" = true)
    (ha : effectiveKind k ex = some a)
    (hf : ¬ debounceFires m file_name a now) :
    processNotification (some file_name) k ex now m = (none, m) := by
  have hsend := sendCond_false_of_not_fires m file_name a now hf
  cases k <;> cases ex <;>
    simp only [effectiveKind, eventKindStr, Option.map_some', Option.map_none',
      Option.some.injEq, Bool.not_true, Bool.not_false, if_true, if_false,
      reduceCtorEq, reduceIte] at ha <;>
    subst ha <;>
    simp [processNotification, hs, eventKindStr, hsend]

theorem getEntry_insertEntry_self (m : DebounceMap) (k : String)
    (v : String × Nat) : getEntry (insertEntry m k v) k = some v := by
  induction m with
  | nil => simp [insertEntry, getEntry]
  | cons hd t ih =>
    obtain ⟨k', v'⟩ := hd
    by_cases hk : k' = k
    · subst hk; simp [insertEntry, getEntry]
    · simp [insertEntry, getEntry, hk, ih]

theorem processNotification_shape (fn : Option String) (k : RawKind)
    (ex : Bool) (t : Nat) (m : DebounceMap) :
    processNotification fn k ex t m = (none, m) ∨
    ∃ f a e, fn = some f ∧ effectiveKind k ex = some a ∧
      processNotification fn k ex t m = (some e, insertEntry m f (a, t)) := by
  rcases fn with _ | f
  · exact Or.inl rfl
  · by_cases hs : strEndsWith f ".obj"
    · rcases hk : eventKindStr k with _ | s
      · exact Or.inl (by simp [processNotification, hs, hk])
      · have ha : effectiveKind k ex = some (if !ex then "remove" else s) := by
          simp [effectiveKind, hk]
        by_cases hfire : debounceFires m f (if !ex then "remove" else s) t
        · obtain ⟨e, heq, -⟩ :=
            processNotification_fires f k ex t m _ hs ha hfire
          exact Or.inr ⟨f, _, e, rfl, ha, heq⟩
        · exact Or.inl (processNotification_quiet f k ex t m _ hs ha hfire)
    · exact Or.inl
        (processNotification_no_suffix f k ex t m (Bool.not_eq_true _ ▸ hs))

theorem processNotification_snd_of_none (fn : Option String) (k : RawKind)
    (ex : Bool) (t : Nat) (m : DebounceMap)
    (h : (processNotification fn k ex t m).1 = none) :
    (processNotification fn k ex t m).2 = m := by
  rcases processNotification_shape fn k ex t m with heq | ⟨f, a, e, -, -, heq⟩
  · rw [heq]
  · rw [heq] at h
    cases h

/-- Claim C7: a raw notification whose extracted filename does not end with
the tracked suffix ".obj" (case-sensitive comparison) produces no semantic
event and leaves the debounce state unchanged, regardless of the
notification's kind. -/
theorem C7_suffix_filter (file_name : String) (kind : RawKind)
    (file_exists : Bool) (now : Nat) (m : DebounceMap)
    (hs : strEndsWith file_name ".obj" = false) :
    processNotification (some file_name) kind file_exists now m = (none, m) := by
  simp [processNotification, hs]

/-- Witness for C7: concrete runs on "notes.txt" (wrong extension) and
"b.OBJ" (right extension, wrong case). -/
theorem C7_suffix_filter_witness :
    (strEndsWith "notes.txt" ".obj" = false ∧
      processNotification (some "notes.txt") RawKind.create true 0
        [("a.obj", "create", 0)] = (none, [("a.obj", "create", 0)])) ∧
    (strEndsWith "b.OBJ" ".obj" = false ∧
      processNotification (some "b.OBJ") RawKind.remove false 7 [] =
        (none, [])) :=
  ⟨⟨by decide, C7_suffix_filter "notes.txt" RawKind.create true 0
      [("a.obj", "create", 0)] (by decide)⟩,
   ⟨by decide, C7_suffix_filter "b.OBJ" RawKind.remove false 7 [] (by decide)⟩⟩

/-- Claim C3: a raw Create or Modify notification that passes the suffix
filter while the file does not exist on disk at the existence check can only
emit `Removed{filename}` — never Added or Modified. -/
theorem C3_existence_override (file_name : String) (k : RawKind) (now : Nat)
    (m : DebounceMap)
    (hs : strEndsWith file_name ".obj" = true)
    (hk : k = RawKind.create ∨ k = RawKind.modify) :
    ∀ e : FileEvent,
      (processNotification (some file_name) k false now m).1 = some e →
        e = FileEvent.Removed file_name := by
  intro e he
  have ha : effectiveKind k false = some "remove" := by
    rcases hk with rfl | rfl <;> rfl
  by_cases hfire : debounceFires m file_name "remove" now
  · obtain ⟨e', heq, hrem⟩ :=
      processNotification_fires file_name k false now m "remove" hs ha hfire
    rw [heq] at he
    obtain rfl := Option.some.inj he
    exact hrem rfl
  · rw [processNotification_quiet file_name k false now m "remove" hs ha hfire]
      at he
    cases he

/-- Witness for C3 at the concrete input: a Create notification for "c.obj"
with the file already gone emits Removed. -/
theorem C3_existence_override_witness :
    strEndsWith "c.obj" ".obj" = true ∧
      (processNotification (some "c.obj") RawKind.create false 0 []).1 =
        some (FileEvent.Removed "c.obj") ∧
      FileEvent.Removed "c.obj" = FileEvent.Removed "c.obj" :=
  ⟨by decide, by decide,
    C3_existence_override "c.obj" RawKind.create 0 [] (by decide) (Or.inl rfl)
      (FileEvent.Removed "c.obj") (by decide)⟩

/-- Claim C4: a raw Remove notification that passes the suffix filter while
the file still exists on disk keeps effective kind "remove": subject only to
the debounce decision, `Removed{filename}` is emitted (and the record set),
otherwise the suppression is due to a recent "remove" record — the
notification is never ignored for another reason nor corrected to
Modified. -/
theorem C4_remove_with_existing_file (file_name : String) (now : Nat)
    (m : DebounceMap)
    (hs : strEndsWith file_name ".obj" = true) :
    processNotification (some file_name) RawKind.remove true now m =
      (some (FileEvent.Removed file_name),
        insertEntry m file_name ("remove", now)) ∨
    (processNotification (some file_name) RawKind.remove true now m =
        (none, m) ∧
      ∃ lt, getEntry m file_name = some ("remove", lt) ∧
        now - lt ≤ debounce_duration) := by
  have ha : effectiveKind RawKind.remove true = some "remove" := rfl
  by_cases hfire : debounceFires m file_name "remove" now
  · obtain ⟨e, heq, hrem⟩ :=
      processNotification_fires file_name RawKind.remove true now m "remove"
        hs ha hfire
    rw [hrem rfl] at heq
    exact Or.inl heq
  · refine Or.inr ⟨processNotification_quiet file_name RawKind.remove true now m
      "remove" hs ha hfire, ?_⟩
    rcases h : getEntry m file_name with _ | ⟨lk, lt⟩
    · exact absurd (Or.inl h) hfire
    · have hnd : ¬(lk ≠ "remove" ∨ now - lt > debounce_duration) := fun hd =>
        hfire (Or.inr ⟨lk, lt, h, hd⟩)
      push_neg at hnd
      obtain ⟨rfl, hle⟩ := hnd
      exact ⟨lt, rfl, by omega⟩

/-- Witness for C4 at the concrete input "b.obj" on an empty debounce map:
the Removed event is emitted even though the file exists. -/
theorem C4_remove_with_existing_file_witness :
    strEndsWith "b.obj" ".obj" = true ∧
      (processNotification (some "b.obj") RawKind.remove true 0 [] =
        (some (FileEvent.Removed "b.obj"),
          insertEntry [] "b.obj" ("remove", 0)) ∨
      (processNotification (some "b.obj") RawKind.remove true 0 [] =
          (none, []) ∧
        ∃ lt, getEntry [] "b.obj" = some ("remove", lt) ∧
          0 - lt ≤ debounce_duration)) :=
  ⟨by decide, C4_remove_with_existing_file "b.obj" 0 [] (by decide)⟩

/-- Claim C5: for a notification that reaches the debounce decision with
effective kind `a`, an event is emitted with the filename's record set to
(a, now) exactly when no record exists, or the kind differs from the
record's kind, or strictly more than the 100 ms window elapsed since the
record's timestamp; otherwise nothing is emitted and the whole debounce map
is unchanged. -/
theorem C5_debounce_decision (file_name : String) (k : RawKind) (ex : Bool)
    (now : Nat) (m : DebounceMap) (a : String)
    (hs : strEndsWith file_name ".obj" = true)
    (ha : effectiveKind k ex = some a) :
    (((processNotification (some file_name) k ex now m).1.isSome = true ∧
      (processNotification (some file_name) k ex now m).2 =
        insertEntry m file_name (a, now)) ↔
      debounceFires m file_name a now) ∧
    (¬ debounceFires m file_name a now →
      processNotification (some file_name) k ex now m = (none, m)) := by
  constructor
  · constructor
    · rintro ⟨h1, -⟩
      by_contra hfire
      rw [processNotification_quiet file_name k ex now m a hs ha hfire] at h1
      cases h1
    · intro hfire
      obtain ⟨e, heq, -⟩ :=
        processNotification_fires file_name k ex now m a hs ha hfire
      rw [heq]
      exact ⟨rfl, rfl⟩
  · exact processNotification_quiet file_name k ex now m a hs ha

/-- Witness for C5 at the concrete input: a Modify for "a.obj" with the file
present, on an empty debounce map. -/
theorem C5_debounce_decision_witness :
    strEndsWith "a.obj" ".obj" = true ∧
    effectiveKind RawKind.modify true = some "modify" ∧
    ((((processNotification (some "a.obj") RawKind.modify true 0 []).1.isSome =
          true ∧
        (processNotification (some "a.obj") RawKind.modify true 0 []).2 =
          insertEntry [] "a.obj" ("modify", 0)) ↔
        debounceFires [] "a.obj" "modify" 0) ∧
      (¬ debounceFires [] "a.obj" "modify" 0 →
        processNotification (some "a.obj") RawKind.modify true 0 [] =
          (none, []))) :=
  ⟨by decide, rfl,
    C5_debounce_decision "a.obj" RawKind.modify true 0 [] "modify"
      (by decide) rfl⟩

/-- Claim C9: the no-event fallback branch of the emission step is
unreachable — whenever the suffix filter and raw-kind filter pass and the
debounce decision says emit, one of the three event-producing branches
applies and an event is produced. -/
theorem C9_fallback_unreachable (file_name : String) (k : RawKind) (ex : Bool)
    (now : Nat) (m : DebounceMap) (s : String)
    (hs : strEndsWith file_name ".obj" = true)
    (hk : eventKindStr k = some s)
    (hfire : debounceFires m file_name (if !ex then "remove" else s) now) :
    (processNotification (some file_name) k ex now m).1.isSome = true := by
  have ha : effectiveKind k ex = some (if !ex then "remove" else s) := by
    simp [effectiveKind, hk]
  obtain ⟨e, heq, -⟩ :=
    processNotification_fires file_name k ex now m _ hs ha hfire
  rw [heq]
  rfl

/-- Witness for C9 at the concrete input: a Create for "d.obj" with the file
absent, on an empty debounce map. -/
theorem C9_fallback_unreachable_witness :
    strEndsWith "d.obj" ".obj" = true ∧
    eventKindStr RawKind.create = some "create" ∧
    debounceFires [] "d.obj" (if !false then "remove" else "create") 3 ∧
    (processNotification (some "d.obj") RawKind.create false 3 []).1.isSome =
      true :=
  ⟨by decide, rfl, Or.inl rfl,
    C9_fallback_unreachable "d.obj" RawKind.create false 3 [] "create"
      (by decide) rfl (Or.inl rfl)⟩

/-- Claim C1 (refuted, code bug): the wire message is internally tagged as
claimed, but the "type" tag is the snake_case rename of the variant
identifier — "added" / "modified" / "removed" — not the "file_added" /
"file_modified" / "file_removed" strings the claim (and the repository's
own client in viewer_html.rs, which switches on exactly those strings)
requires. -/
theorem C1_wire_format_bug :
    serializeFileEvent (FileEvent.Added "a.obj") =
      "\x7b\"type\":\"added\",\"filename\":\"a.obj\"\x7d" ∧
    serializeFileEvent (FileEvent.Modified "a.obj") =
      "\x7b\"type\":\"modified\",\"filename\":\"a.obj\"\x7d" ∧
    serializeFileEvent (FileEvent.Removed "a.obj") =
      "\x7b\"type\":\"removed\",\"filename\":\"a.obj\"\x7d" ∧
    serializeFileEvent (FileEvent.Added "a.obj") ≠
      "\x7b\"type\":\"file_added\",\"filename\":\"a.obj\"\x7d" := by
  refine ⟨by decide, by decide, by decide, by decide⟩

theorem firstEmitTime_cons_none (n : RawNote) (rest : List RawNote)
    (m : DebounceMap)
    (h : (processNotification n.fname n.kind n.file_exists n.now m).1 = none) :
    firstEmitTime (n :: rest) m = firstEmitTime rest m := by
  have h2 := processNotification_snd_of_none n.fname n.kind n.file_exists n.now m h
  simp only [firstEmitTime]
  rw [h, h2]

theorem firstEmitTime_cons_some (n : RawNote) (rest : List RawNote)
    (m : DebounceMap) (e : FileEvent)
    (h : (processNotification n.fname n.kind n.file_exists n.now m).1 = some e) :
    firstEmitTime (n :: rest) m = some n.now := by
  simp only [firstEmitTime]
  rw [h]

theorem processList_suppressed (f a : String) (T : Nat) (notes : List RawNote)
    (m : DebounceMap)
    (hrec : getEntry m f = some (a, T))
    (hf : ∀ n ∈ notes, n.fname = some f)
    (ha : ∀ n ∈ notes, effectiveKind n.kind n.file_exists = some a)
    (hw : ∀ n ∈ notes, n.now - T ≤ debounce_duration) :
    processList notes m = ([], m) := by
  induction notes with
  | nil => rfl
  | cons n rest ih =>
    have h2 : effectiveKind n.kind n.file_exists = some a :=
      ha n (List.mem_cons_self n rest)
    have h3 : n.now - T ≤ debounce_duration := hw n (List.mem_cons_self n rest)
    have hnot : ¬ debounceFires m f a n.now := by
      rintro (hnone | ⟨lk, lt, heq, hd⟩)
      · rw [hrec] at hnone
        cases hnone
      · rw [hrec] at heq
        obtain ⟨rfl, rfl⟩ : a = lk ∧ T = lt := by
          simpa [Prod.ext_iff] using Option.some.inj heq
        rcases hd with hd | hd
        · exact hd rfl
        · omega
    have hstep : processNotification n.fname n.kind n.file_exists n.now m =
        (none, m) := by
      rw [hf n (List.mem_cons_self n rest)]
      by_cases hs : strEndsWith f ".obj"
      · exact processNotification_quiet f n.kind n.file_exists n.now m a hs
          h2 hnot
      · exact processNotification_no_suffix f n.kind n.file_exists n.now m
          (Bool.not_eq_true _ ▸ hs)
    have ihr := ih (fun x hx => hf x (List.mem_cons_of_mem n hx))
      (fun x hx => ha x (List.mem_cons_of_mem n hx))
      (fun x hx => hw x (List.mem_cons_of_mem n hx))
    simp [processList, hstep, ihr]

/-- Claim C6: a sequence of raw notifications for one filename whose
effective kinds are all the same and whose processing times all lie within
one debounce window of the first emission produces at most one semantic
event. -/
theorem C6_dedup_window (f a : String) (notes : List RawNote) (m : DebounceMap)
    (hf : ∀ n ∈ notes, n.fname = some f)
    (ha : ∀ n ∈ notes, effectiveKind n.kind n.file_exists = some a)
    (hw : ∀ T, firstEmitTime notes m = some T →
      ∀ n ∈ notes, n.now - T ≤ debounce_duration) :
    (processList notes m).1.length ≤ 1 := by
  induction notes generalizing m with
  | nil => simp [processList]
  | cons n rest ih =>
    rcases hsh : (processNotification n.fname n.kind n.file_exists n.now m).1
      with _ | e
    · have hm := processNotification_snd_of_none n.fname n.kind n.file_exists
        n.now m hsh
      have hfe := firstEmitTime_cons_none n rest m hsh
      have hpl : processList (n :: rest) m = processList rest m := by
        simp only [processList]
        rw [hsh, hm]
        simp
      rw [hpl]
      exact ih m (fun x hx => hf x (List.mem_cons_of_mem n hx))
        (fun x hx => ha x (List.mem_cons_of_mem n hx))
        (fun T hT x hx => hw T (hfe.trans hT) x (List.mem_cons_of_mem n hx))
    · rcases processNotification_shape n.fname n.kind n.file_exists n.now m
        with heq | ⟨f', a', e', hfn, ha', heq⟩
      · rw [heq] at hsh
        cases hsh
      · have hff : f = f' := by
          have h1 := hf n (List.mem_cons_self n rest)
          rw [h1] at hfn
          exact Option.some.inj hfn
        have haa : a = a' := by
          have h1 := ha n (List.mem_cons_self n rest)
          rw [h1] at ha'
          exact Option.some.inj ha'
        rw [← hff, ← haa] at heq
        have hfe := firstEmitTime_cons_some n rest m e hsh
        have hwin := hw n.now hfe
        have hsup := processList_suppressed f a n.now rest
          (insertEntry m f (a, n.now))
          (getEntry_insertEntry_self m f (a, n.now))
          (fun x hx => hf x (List.mem_cons_of_mem n hx))
          (fun x hx => ha x (List.mem_cons_of_mem n hx))
          (fun x hx => hwin x (List.mem_cons_of_mem n hx))
        have hpl : processList (n :: rest) m =
            ([e'], insertEntry m f (a, n.now)) := by
          simp [processList, heq, hsup]
        rw [hpl]
        simp

/-- Witness for C6: two spurious Remove notifications for "a.obj" (file
absent) 50 ms apart starting from an empty debounce map emit exactly one
Removed event. -/
theorem C6_dedup_window_witness :
    processList
        [⟨some "a.obj", RawKind.remove, false, 0⟩,
         ⟨some "a.obj", RawKind.remove, false, 50⟩] [] =
      ([FileEvent.Removed "a.obj"], [("a.obj", "remove", 0)]) ∧
    (processList
        [⟨some "a.obj", RawKind.remove, false, 0⟩,
         ⟨some "a.obj", RawKind.remove, false, 50⟩] []).1.length ≤ 1 :=
  ⟨by decide,
    C6_dedup_window "a.obj" "remove"
      [⟨some "a.obj", RawKind.remove, false, 0⟩,
       ⟨some "a.obj", RawKind.remove, false, 50⟩] []
      (by decide) (by decide)
      (fun T hT => by
        have h0 : firstEmitTime
            [⟨some "a.obj", RawKind.remove, false, 0⟩,
             ⟨some "a.obj", RawKind.remove, false, 50⟩] ([] : DebounceMap) =
            some 0 := by decide
        rw [h0] at hT
        obtain rfl : (0 : Nat) = T := Option.some.inj hT
        decide)⟩

/-- Claim C8: the directory listing query returns exactly the names the
directory read yields for regular files with UTF-8 names ending in ".obj"
(the filter embodied by `entryFileName`), in ascending lexical order: the
result is sorted and is a permutation of those names. -/
theorem C8_listing_sorted_filtered (entries : List (Option DirEntry)) :
    List.Sorted (· ≤ ·) (list_files (some entries)) ∧
    List.Perm (list_files (some entries)) (entries.filterMap entryFileName) := by
  constructor
  · exact List.sorted_mergeSort' (entries.filterMap entryFileName)
  · exact List.mergeSort_perm (entries.filterMap entryFileName) _

/-- Claim C10: the directory listing is total and never surfaces an error: a
failed directory read yields the empty list, and an errored entry, an entry
that is not a regular file or whose metadata is unreadable, or one whose
name is not valid UTF-8, is silently skipped (removing it from the read
result does not change the response). -/
theorem C10_listing_error_handling (pre post : List (Option DirEntry))
    (bad : Option DirEntry)
    (hbad : bad = none ∨ ∃ d, bad = some d ∧
      (d.metadata ≠ some true ∨ d.file_name = none)) :
    list_files none = [] ∧
    list_files (some (pre ++ bad :: post)) = list_files (some (pre ++ post)) := by
  refine ⟨rfl, ?_⟩
  have hnone : entryFileName bad = none := by
    rcases hbad with rfl | ⟨d, rfl, hd⟩
    · rfl
    · obtain ⟨nm, md⟩ := d
      rcases md with _ | b
      · rfl
      · rcases b with _ | _
        · rfl
        · rcases hd with hd | hd
          · exact absurd rfl hd
          · rcases nm with _ | s
            · rfl
            · cases hd
  simp [list_files, List.filterMap_append, List.filterMap_cons, hnone]

/-- Witness for C10: a subdirectory entry named "dir.obj" between two
regular ".obj" files does not appear in the listing. -/
theorem C10_listing_error_handling_witness :
    ((some (DirEntry.mk (some "dir.obj") (some false)) :
        Option DirEntry) = none ∨
      ∃ d, (some (DirEntry.mk (some "dir.obj") (some false)) :
          Option DirEntry) = some d ∧
        (d.metadata ≠ some true ∨ d.file_name = none)) ∧
    list_files none = [] ∧
    list_files (some
        [some (DirEntry.mk (some "b.obj") (some true)),
         some (DirEntry.mk (some "dir.obj") (some false)),
         some (DirEntry.mk (some "a.obj") (some true))]) =
      list_files (some
        [some (DirEntry.mk (some "b.obj") (some true)),
         some (DirEntry.mk (some "a.obj") (some true))]) :=
  ⟨Or.inr ⟨DirEntry.mk (some "dir.obj") (some false), rfl, Or.inl (by decide)⟩,
    C10_listing_error_handling
      [some (DirEntry.mk (some "b.obj") (some true))]
      [some (DirEntry.mk (some "a.obj") (some true))]
      (some (DirEntry.mk (some "dir.obj") (some false)))
      (Or.inr ⟨DirEntry.mk (some "dir.obj") (some false), rfl,
        Or.inl (by decide)⟩)⟩

/-- Claim C2 (refuted, code bug): a watcher-creation or watch-attach failure
panics only the spawned watcher task; the HTTP server still binds and
serves, so the process runs in a degraded mode (no file events, everything
else up) instead of aborting startup. -/
theorem C2_no_startup_abort :
    mainStartup false true true =
      { watcherTaskAlive := false, serverRunning := true } ∧
    mainStartup true false true =
      { watcherTaskAlive := false, serverRunning := true } :=
  ⟨rfl, rfl⟩

end KitbashViewer
